import Mathlib

/-!
Verification of the dbm repository (db_manager.py, data_ingestor.py,
data_processor.py, data_api.py) against its natural-language specification.

The Python code is shallowly embedded: SQL queries over the SQLite tables
become executable functions over explicit list-based states, pure helper
functions become Lean functions over `String`/`List Char`/`ℚ`, and the
fallible database inserts are driven by explicit success oracles.
-/

namespace Dbm

/-! ## String utilities

SQLite `LIKE '%p%'` performs a substring match that is case-insensitive on
ASCII letters.  We model it on `List Char` with ASCII case folding
(`Char.toLower` lowers exactly the ASCII range, matching SQLite). -/

/-- `startsWithL p s` is true when `p` is an initial segment of `s`. -/
def startsWithL : List Char → List Char → Bool
  | [], _ => true
  | _ :: _, [] => false
  | a :: p, b :: s => a == b && startsWithL p s

/-- `hasSubL p s` is true when `p` occurs contiguously inside `s`. -/
def hasSubL (p : List Char) : List Char → Bool
  | [] => p.isEmpty
  | c :: rest => startsWithL p (c :: rest) || hasSubL p rest

/-- Plain (case-sensitive) substring test on strings. -/
def strContains (needle hay : String) : Bool :=
  hasSubL needle.toList hay.toList

/-- SQLite `x LIKE '%pat%'`: ASCII-case-insensitive substring match, as used
by `get_data_objects` / `get_data_objects_count` for tag and name filters. -/
def likeSub (pat s : String) : Bool :=
  hasSubL (pat.toList.map Char.toLower) (s.toList.map Char.toLower)

theorem startsWithL_self_append (p rest : List Char) :
    startsWithL p (p ++ rest) = true := by
  induction p with
  | nil => rfl
  | cons a p ih => simp [startsWithL, ih]

theorem hasSubL_self_append (p l₂ : List Char) :
    hasSubL p (p ++ l₂) = true := by
  cases p with
  | nil =>
    cases l₂ with
    | nil => rfl
    | cons c rest => simp [hasSubL, startsWithL]
  | cons a p =>
    have h := startsWithL_self_append (a :: p) l₂
    simp [hasSubL]
    exact Or.inl h

theorem hasSubL_append_left (l₁ p l₂ : List Char) :
    hasSubL p (l₁ ++ p ++ l₂) = true := by
  induction l₁ with
  | nil => simpa using hasSubL_self_append p l₂
  | cons c l₁ ih =>
    show (startsWithL p (c :: (l₁ ++ p ++ l₂)) || hasSubL p (l₁ ++ p ++ l₂)) = true
    have ih' : hasSubL p (l₁ ++ (p ++ l₂)) = true := by
      simpa [List.append_assoc] using ih
    simp [ih']

/-! ## Multi-tag AND filter (db_manager.get_data_objects, lines 193-232)

The SQL condition for a candidate entry is

    HAVING COUNT(DISTINCT (CASE WHEN t.name LIKE ?0 THEN 'pattern_0'
                                WHEN t.name LIKE ?1 THEN 'pattern_1' ... END))
           = <number of patterns>

grouped over the entry's associated tag rows.  A SQL `CASE` yields the label
of the *first* `WHEN` branch that matches (and `NULL`, dropped by `COUNT`,
when none matches), so each tag contributes at most the index of the first
pattern it contains. -/

/-- Index of the first pattern (in supplied order) that a tag name matches:
the value of the SQL `CASE` expression for one tag row. -/
def firstMatchIdx : List String → String → Option Nat
  | [], _ => none
  | p :: ps, t => if likeSub p t then some 0 else (firstMatchIdx ps t).map (· + 1)

/-- Tag condition of `get_data_objects`: the number of distinct non-NULL
`CASE` values over the entry's tags equals the number of patterns. -/
def codeTagMatch (pats tagNames : List String) : Bool :=
  ((tagNames.filterMap (firstMatchIdx pats)).dedup).length == pats.length

/-- Tag condition of `get_data_objects_count` (lines 276-292):

    WHERE t.name LIKE ?0 OR ... GROUP BY ... HAVING COUNT(DISTINCT t.name) = N

i.e. the number of distinct tag *names* matching any pattern equals `N`. -/
def countTagMatch (pats tagNames : List String) : Bool :=
  ((tagNames.filter (fun t => pats.any (fun p => likeSub p t))).dedup).length
    == pats.length

/-- The filter semantics in the words of the spec (§4.2): for every supplied
pattern, at least one of the entry's tags contains it as a substring. -/
def specTagMatch (pats tagNames : List String) : Bool :=
  pats.all (fun p => tagNames.any (fun t => likeSub p t))

theorem firstMatchIdx_lt {pats : List String} {t : String} {i : Nat}
    (h : firstMatchIdx pats t = some i) : i < pats.length := by
  induction pats generalizing i with
  | nil => simp [firstMatchIdx] at h
  | cons p ps ih =>
    by_cases hp : likeSub p t
    · simp [firstMatchIdx, hp] at h
      simp only [List.length_cons]
      omega
    · simp [firstMatchIdx, hp] at h
      obtain ⟨j, hj, rfl⟩ := h
      have := ih hj
      simp only [List.length_cons]
      omega

/-! ## Catalog queries (db_manager.py, lines 162-300)

A catalog row together with its associated tag names (the association table
restricted to this row).  `created_at` is modelled as a natural number since
only its ordering is used (`ORDER BY do.created_at DESC`). -/

structure CatEntry where
  id : Nat
  name : String
  etype : String
  status : String
  createdAt : Nat
  tags : List String
deriving Repr, DecidableEq

/-- The optional filters of `get_data_objects` / `get_data_objects_count`.
A Python-falsy filter value (None or the empty string) deactivates the
condition; we model an absent filter as `none`. -/
structure Query where
  status : Option String
  ftype : Option String
  nameLike : Option String
  tagPats : List String

/-- The scalar `WHERE` conditions shared by both queries (status and type
are exact matches, the name filter is `LIKE '%name_like%'`). -/
def rowMatchesBase (q : Query) (e : CatEntry) : Bool :=
  (match q.status with | none => true | some s => e.status == s) &&
  (match q.ftype with | none => true | some s => e.etype == s) &&
  (match q.nameLike with | none => true | some s => likeSub s e.name)

/-- Insertion step for `ORDER BY created_at DESC` (ties keep scan order,
which SQL leaves unspecified). -/
def insertByCreated (e : CatEntry) : List CatEntry → List CatEntry
  | [] => [e]
  | x :: xs =>
    if x.createdAt < e.createdAt then e :: x :: xs else x :: insertByCreated e xs

/-- `ORDER BY do.created_at DESC` as an insertion sort. -/
def sortByCreatedDesc : List CatEntry → List CatEntry
  | [] => []
  | e :: es => insertByCreated e (sortByCreatedDesc es)

/-- `get_data_objects(status, file_type, tags, name_like, limit, offset)`:
filter, order newest-first, then `LIMIT ? OFFSET ?`.  The tag condition is
applied only when a non-empty pattern list is supplied
(`if tags and isinstance(tags, list) and len(tags) > 0`), and is the
`COUNT(DISTINCT CASE ...)` subquery modelled by `codeTagMatch`. -/
def get_data_objects (db : List CatEntry) (q : Query) (limit offset : Nat) :
    List CatEntry :=
  let cond := fun e => rowMatchesBase q e &&
    (if q.tagPats.isEmpty then true else codeTagMatch q.tagPats e.tags)
  ((sortByCreatedDesc (db.filter cond)).drop offset).take limit

/-- `get_data_objects_count(...)`: `SELECT COUNT(DISTINCT do.id)` with the
same scalar conditions but the `COUNT(DISTINCT t.name) = N` tag subquery
modelled by `countTagMatch`. -/
def get_data_objects_count (db : List CatEntry) (q : Query) : Nat :=
  let cond := fun e => rowMatchesBase q e &&
    (if q.tagPats.isEmpty then true else countTagMatch q.tagPats e.tags)
  (((db.filter cond).map (fun e => e.id)).dedup).length

/-- `update_data_object(object_id, status=...)` (lines 326-372): the
`UPDATE data_objects SET status = ? WHERE id = ?` statement matches on the
id alone, and the returned flag is `rows_updated > 0` where `rows_updated`
is the number of rows matched by the id. -/
def update_status (db : List CatEntry) (oid : Nat) (st : String) :
    Bool × List CatEntry :=
  let rows := (db.filter (fun e => e.id == oid)).length
  (rows != 0, db.map (fun e => if e.id == oid then { e with status := st } else e))

/-! ## Theorems for claims C1, C2 and C9 -/

/-- C1 (counterexample): an entry with the single tag `"ab"` contains both
supplied patterns `"a"` and `"b"` as substrings, so by the claim it should
satisfy the two-pattern filter, yet `get_data_objects` does not return it:
the SQL `CASE` gives the tag only its first matching pattern, so only one
distinct pattern label is counted. -/
theorem C1_counterexample :
    specTagMatch ["a", "b"] ["ab"] = true ∧
    codeTagMatch ["a", "b"] ["ab"] = false ∧
    get_data_objects [⟨0, "doc", "text/plain", "new", 0, ["ab"]⟩]
      ⟨none, none, none, ["a", "b"]⟩ 100 0 = [] := by
  refine ⟨by decide, by decide, by decide⟩

/-- C1 (amended): an entry satisfies the tag filter of `get_data_objects`
if and only if, for every index `i` of the supplied pattern list, at least
one of the entry's tag names has pattern `i` as the *first* pattern (in the
supplied order) that it contains as a substring.  A tag containing several
patterns is counted only toward the earliest of them. -/
theorem C1_tag_filter_first_match (pats tagNames : List String) :
    codeTagMatch pats tagNames = true ↔
      ∀ i < pats.length, ∃ t ∈ tagNames, firstMatchIdx pats t = some i := by
  classical
  have hmem : ∀ i : Nat,
      i ∈ (tagNames.filterMap (firstMatchIdx pats)).toFinset ↔
        ∃ t ∈ tagNames, firstMatchIdx pats t = some i := by
    intro i
    rw [List.mem_toFinset, List.mem_filterMap]
  have hsub : (tagNames.filterMap (firstMatchIdx pats)).toFinset ⊆
      Finset.range pats.length := by
    intro j hj
    rcases (hmem j).mp hj with ⟨t, _, ht⟩
    exact Finset.mem_range.mpr (firstMatchIdx_lt ht)
  have hcard : (tagNames.filterMap (firstMatchIdx pats)).toFinset.card =
      ((tagNames.filterMap (firstMatchIdx pats)).dedup).length :=
    List.card_toFinset _
  constructor
  · intro h i hi
    have hlen : ((tagNames.filterMap (firstMatchIdx pats)).dedup).length
        = pats.length := by
      simpa [codeTagMatch] using h
    have heq : (tagNames.filterMap (firstMatchIdx pats)).toFinset =
        Finset.range pats.length := by
      apply Finset.eq_of_subset_of_card_le hsub
      rw [hcard, hlen, Finset.card_range]
    have hi' : i ∈ (tagNames.filterMap (firstMatchIdx pats)).toFinset := by
      rw [heq]; exact Finset.mem_range.mpr hi
    exact (hmem i).mp hi'
  · intro h
    have hsup : Finset.range pats.length ⊆
        (tagNames.filterMap (firstMatchIdx pats)).toFinset := by
      intro i hi
      exact (hmem i).mpr (h i (Finset.mem_range.mp hi))
    have heq := Finset.Subset.antisymm hsub hsup
    have hlen : ((tagNames.filterMap (firstMatchIdx pats)).dedup).length
        = pats.length := by
      rw [← hcard, heq, Finset.card_range]
    simpa [codeTagMatch] using hlen

/-- C2 (code bug): for a catalog holding one entry tagged
`{"apple", "apricot"}` and the filter `tags = ["ap"]`, `get_data_objects`
(with an ample limit and offset 0) returns the entry, because exactly one
distinct pattern is satisfied, while `get_data_objects_count` returns 0,
because its `HAVING COUNT(DISTINCT t.name) = 1` clause sees two distinct
matching tag names.  The count therefore differs from the list length. -/
theorem C2_count_list_divergence :
    (get_data_objects [⟨0, "e", "t", "new", 0, ["apple", "apricot"]⟩]
        ⟨none, none, none, ["ap"]⟩ 100 0).length = 1 ∧
    get_data_objects_count [⟨0, "e", "t", "new", 0, ["apple", "apricot"]⟩]
        ⟨none, none, none, ["ap"]⟩ = 0 := by
  refine ⟨by decide, by decide⟩

/-- C9 (code bug): the Classifier's claim step is not conditional on the
row still being `new`.  Both replicas fetch the same candidate from the
same state, and the second `UPDATE ... WHERE id = ?` (issued after the
first already set the status to `processing`) still matches the row and
reports success, so neither replica skips the entry. -/
theorem C9_claim_not_conditional :
    get_data_objects [⟨0, "doc", "text/plain", "new", 0, ["unclassified"]⟩]
        ⟨some "new", none, none, []⟩ 15 0
      = [⟨0, "doc", "text/plain", "new", 0, ["unclassified"]⟩] ∧
    (update_status [⟨0, "doc", "text/plain", "new", 0, ["unclassified"]⟩]
        0 "processing").1 = true ∧
    (update_status
        (update_status [⟨0, "doc", "text/plain", "new", 0, ["unclassified"]⟩]
          0 "processing").2
        0 "processing").1 = true := by
  refine ⟨by decide, by decide, by decide⟩

/-! ## Tag/association state (db_manager: _manage_tags, insert, update, delete)

The three tables that the tag claims touch: `data_objects` (only id and
status matter here), `tags` (the vocabulary: unique names, surrogate key
elided), and `data_object_tags` (pairs of object id and tag name, via the
surrogate key in the source). -/

structure Obj where
  oid : Nat
  status : String
deriving Repr, DecidableEq

structure Db where
  objects : List Obj
  tagNames : List String
  assocs : List (Nat × String)
deriving Repr, DecidableEq

/-- `_manage_tags(cursor, object_id, tags_list)` (lines 94-115): delete all
of the object's associations; if the list is empty, stop there; otherwise
upsert each distinct name into the vocabulary (`INSERT OR IGNORE`) and
insert the new associations.  Python's `set(tags_list)` is modelled as
`dedup` (iteration order is unspecified in the source as well). -/
def manage_tags (db : Db) (oid : Nat) (tagsList : List String) : Db :=
  let cleared : Db := { db with assocs := db.assocs.filter (fun a => a.1 != oid) }
  if tagsList.isEmpty then cleared
  else
    let uniq := tagsList.dedup
    { cleared with
      tagNames := uniq.foldl
        (fun acc n => if acc.contains n then acc else acc ++ [n]) cleared.tagNames
      assocs := cleared.assocs ++ uniq.map (fun n => (oid, n)) }

/-- `insert_data_object` (lines 118-160), restricted to the fields the tag
claims depend on: `tags_to_insert = tags if tags else ["unclassified"]`,
then the row insert followed by `_manage_tags`. -/
def insert_data_object (db : Db) (newId : Nat) (status : String)
    (tags : List String) : Db :=
  let tagsToInsert := if tags.isEmpty then ["unclassified"] else tags
  manage_tags { db with objects := db.objects ++ [⟨newId, status⟩] } newId tagsToInsert

/-- `update_data_object(object_id, tags=...)` (lines 326-372): when the
`tags` keyword is supplied, the whole association set is replaced by
`_manage_tags`, with no fallback for an empty list. -/
def update_tags (db : Db) (oid : Nat) (tagsField : List String) : Db :=
  manage_tags db oid tagsField

/-- `delete_data_object` (lines 381-401): `DELETE FROM data_objects WHERE
id = ?`; the `ON DELETE CASCADE` on `data_object_tags` removes the
association rows.  No statement touches the `tags` table. -/
def delete_data_object (db : Db) (oid : Nat) : Db :=
  { objects := db.objects.filter (fun o => o.oid != oid)
    tagNames := db.tagNames
    assocs := db.assocs.filter (fun a => a.1 != oid) }

/-- The tag names associated with one object. -/
def entryTags (db : Db) (oid : Nat) : List String :=
  (db.assocs.filter (fun a => a.1 == oid)).map (fun a => a.2)

/-- Insertion step of Python's `sorted` on strings. -/
def insertSorted (s : String) : List String → List String
  | [] => [s]
  | x :: xs => if s < x then s :: x :: xs else x :: insertSorted s xs

/-- Python's `sorted` on a list of strings, as an insertion sort. -/
def sortStrings : List String → List String
  | [] => []
  | s :: ss => insertSorted s (sortStrings ss)

/-- The tag list persisted by the Classifier (data_processor.py line 292):
`sorted(all_tags if all_tags else ["unclassified"])`. -/
def classifier_updated_tags (allTags : List String) : List String :=
  sortStrings (if allTags.isEmpty then ["unclassified"] else allTags)

theorem length_insertSorted (s : String) (l : List String) :
    (insertSorted s l).length = l.length + 1 := by
  induction l with
  | nil => rfl
  | cons x xs ih =>
    by_cases h : s < x
    · simp [insertSorted, h]
    · simp [insertSorted, h, ih]

theorem length_sortStrings (l : List String) :
    (sortStrings l).length = l.length := by
  induction l with
  | nil => rfl
  | cons x xs ih => simp [sortStrings, length_insertSorted, ih]

theorem filter_ne_then_eq_nil (xs : List (Nat × String)) (oid : Nat) :
    (xs.filter (fun a => a.1 != oid)).filter (fun a => a.1 == oid) = [] := by
  rw [List.filter_eq_nil_iff]
  intro a ha
  have h := (List.mem_filter.mp ha).2
  simp at h
  simp [h]

theorem entryTags_manage_tags (db : Db) (oid : Nat) (l : List String) :
    entryTags (manage_tags db oid l) oid =
      if l.isEmpty then [] else l.dedup := by
  cases l with
  | nil => simp [manage_tags, entryTags, filter_ne_then_eq_nil]
  | cons x xs =>
    simp only [manage_tags, List.isEmpty_cons, Bool.false_eq_true, if_false,
      entryTags, List.filter_append, filter_ne_then_eq_nil, List.nil_append]
    rw [List.filter_map]
    have hpred : ((fun a : Nat × String => a.1 == oid) ∘ fun n => (oid, n))
        = fun _ => true := by
      funext n; simp
    rw [hpred, List.filter_true, List.map_map]
    simp

/-! ## Theorems for claims C7 and C8 -/

/-- C7 (counterexample): after inserting an object (which does get the
sentinel tag) and then updating it with an explicit empty `tags` list, the
object still exists but its tag set is empty — `_manage_tags` deletes all
associations and returns before any fallback when the list is empty. -/
theorem C7_counterexample :
    entryTags
        (update_tags (insert_data_object ⟨[], [], []⟩ 0 "new" ["example"]) 0 []) 0
      = [] ∧
    (update_tags (insert_data_object ⟨[], [], []⟩ 0 "new" ["example"]) 0
        []).objects.map (fun o => o.oid) = [0] := by
  refine ⟨by decide, by decide⟩

/-- C7 (amended): insert falls back to the sentinel `unclassified` and the
Classifier's persisted tag list is always non-empty, but the Catalog
Store's update with an empty `tags` list deletes every association of the
entry and applies no fallback, leaving the entry with zero tags. -/
theorem C7_tags_nonempty_except_update (db : Db) (newId oid : Nat)
    (st : String) (tags allTags : List String) :
    entryTags (insert_data_object db newId st tags) newId ≠ [] ∧
    classifier_updated_tags allTags ≠ [] ∧
    entryTags (update_tags db oid []) oid = [] := by
  refine ⟨?_, ?_, ?_⟩
  · unfold insert_data_object
    rw [entryTags_manage_tags]
    cases tags with
    | nil => decide
    | cons a as => simp [List.dedup_eq_nil]
  · unfold classifier_updated_tags
    intro hcontra
    have hlen := length_sortStrings
      (if allTags.isEmpty then ["unclassified"] else allTags)
    rw [hcontra] at hlen
    cases allTags with
    | nil => simp at hlen
    | cons a as => simp at hlen
  · unfold update_tags
    rw [entryTags_manage_tags]
    simp

/-- C8 (counterexample): insert an object with the fresh tag
`"finance_tag"`, then delete the object.  Afterwards no object and no
association remain, yet the tag row is still in the vocabulary — a tag
referenced by zero DataObjects is not removed. -/
theorem C8_counterexample :
    (delete_data_object
        (insert_data_object ⟨[], [], []⟩ 0 "new" ["finance_tag"]) 0).objects
      = [] ∧
    (delete_data_object
        (insert_data_object ⟨[], [], []⟩ 0 "new" ["finance_tag"]) 0).tagNames
      = ["finance_tag"] ∧
    (delete_data_object
        (insert_data_object ⟨[], [], []⟩ 0 "new" ["finance_tag"]) 0).assocs
      = [] := by
  refine ⟨by decide, by decide, by decide⟩

/-- C8 (amended): the cascade removes the association rows only — after a
delete no association references the deleted object and the vocabulary is
untouched, and replacing an entry's associations never removes vocabulary
rows either (the vocabulary only ever grows by a suffix), so tag rows with
zero remaining references persist. -/
theorem C8_cascade_assocs_only (db : Db) (oid : Nat) (l : List String) :
    (delete_data_object db oid).tagNames = db.tagNames ∧
    ((delete_data_object db oid).assocs.all (fun a => a.1 != oid)) = true ∧
    ((manage_tags db oid l).assocs.all
        (fun a => a.1 != oid || l.contains a.2)) = true ∧
    (∃ ext, (manage_tags db oid l).tagNames = db.tagNames ++ ext) := by
  refine ⟨rfl, ?_, ?_, ?_⟩
  · rw [List.all_eq_true]
    intro a ha
    exact (List.mem_filter.mp ha).2
  · cases l with
    | nil =>
      simp only [manage_tags, List.isEmpty_nil, if_true]
      rw [List.all_eq_true]
      intro a ha
      have h2 := (List.mem_filter.mp ha).2
      simp_all
    | cons x xs =>
      simp only [manage_tags, List.isEmpty_cons, Bool.false_eq_true, if_false]
      rw [List.all_eq_true]
      intro a ha
      rcases List.mem_append.mp ha with hleft | hright
      · have h2 := (List.mem_filter.mp hleft).2
        simp_all
      · rcases List.mem_map.mp hright with ⟨n, hn, rfl⟩
        have hmem : n ∈ x :: xs := List.mem_dedup.mp hn
        simpa using hmem
  · have key : ∀ (m : List String) (acc : List String), ∃ ext,
        m.foldl (fun acc n => if acc.contains n then acc else acc ++ [n]) acc
          = acc ++ ext := by
      intro m
      induction m with
      | nil => exact fun acc => ⟨[], by simp⟩
      | cons x xs ih =>
        intro acc
        by_cases hx : acc.contains x = true
        · rcases ih acc with ⟨ext, hext⟩
          refine ⟨ext, ?_⟩
          rw [List.foldl_cons, if_pos hx]
          exact hext
        · rcases ih (acc ++ [x]) with ⟨ext, hext⟩
          refine ⟨[x] ++ ext, ?_⟩
          rw [List.foldl_cons, if_neg hx, hext, List.append_assoc]
    cases l with
    | nil => exact ⟨[], by simp [manage_tags]⟩
    | cons x xs =>
      simp only [manage_tags, List.isEmpty_cons, Bool.false_eq_true, if_false]
      exact key (x :: xs).dedup db.tagNames

/-! ## Tag read path (get_data_object_by_id lines 302-324, and the identical
post-processing in get_data_objects lines 245-253)

The SQL side produces `GROUP_CONCAT(t.name)`, the names joined with `,`;
the Python side then runs `obj['tags'].split(',')`, or `[]` for a row with
no tags (`GROUP_CONCAT` of nothing is `NULL`).  Strings are modelled as
`List Char` so the splitting admits induction. -/

/-- Python `s.split(',')`. -/
def splitComma : List Char → List (List Char)
  | [] => [[]]
  | c :: rest =>
    if c = ',' then [] :: splitComma rest
    else
      match splitComma rest with
      | [] => [[c]]
      | piece :: more => (c :: piece) :: more

/-- SQL `GROUP_CONCAT(t.name)`: the names joined with `,`. -/
def joinComma : List (List Char) → List Char
  | [] => []
  | [x] => x
  | x :: y :: rest => x ++ ',' :: joinComma (y :: rest)

/-- The tag list a read operation returns, given the stored tag names of
the entry: `row['tags'].split(',')` when there is at least one associated
tag, `[]` otherwise. -/
def readTags (names : List (List Char)) : List (List Char) :=
  if names.isEmpty then [] else splitComma (joinComma names)

theorem splitComma_ne_nil (s : List Char) : splitComma s ≠ [] := by
  cases s with
  | nil => simp [splitComma]
  | cons c rest =>
    by_cases h : c = ','
    · simp [splitComma, h]
    · simp only [splitComma, h, if_false]
      cases splitComma rest <;> simp

theorem comma_not_mem_splitComma (s : List Char) :
    ∀ p ∈ splitComma s, ',' ∉ p := by
  induction s with
  | nil =>
    intro p hp
    simp [splitComma] at hp
    simp [hp]
  | cons c rest ih =>
    intro p hp
    by_cases h : c = ','
    · simp only [splitComma, h, if_pos rfl] at hp
      rcases List.mem_cons.mp hp with rfl | hp'
      · simp
      · exact ih p hp'
    · simp only [splitComma, h, if_false] at hp
      rcases hsp : splitComma rest with _ | ⟨piece, more⟩
      · exact absurd hsp (splitComma_ne_nil rest)
      · rw [hsp] at hp
        rcases List.mem_cons.mp hp with rfl | hp'
        · intro hc
          rcases List.mem_cons.mp hc with hceq | hc'
          · exact h hceq.symm
          · exact ih piece (by rw [hsp]; exact List.mem_cons_self _ _) hc'
        · exact ih p (by rw [hsp]; exact List.mem_cons_of_mem _ hp')

theorem splitComma_cons_ne (c : Char) (h : ¬c = ',') (rest : List Char) :
    splitComma (c :: rest) =
      match splitComma rest with
      | [] => [[c]]
      | piece :: more => (c :: piece) :: more := by
  simp [splitComma, h]

theorem splitComma_append_comma (x y : List Char) :
    splitComma (x ++ ',' :: y) = splitComma x ++ splitComma y := by
  induction x with
  | nil => simp [splitComma]
  | cons c x ih =>
    by_cases h : c = ','
    · simp [splitComma, h, ih]
    · rw [List.cons_append, splitComma_cons_ne c h, splitComma_cons_ne c h, ih]
      rcases hsp : splitComma x with _ | ⟨piece, more⟩
      · exact absurd hsp (splitComma_ne_nil x)
      · simp

theorem splitComma_joinComma (names : List (List Char)) (h : names ≠ []) :
    splitComma (joinComma names) = (names.map splitComma).flatten := by
  induction names with
  | nil => exact absurd rfl h
  | cons x rest ih =>
    cases rest with
    | nil => simp [joinComma]
    | cons y rest' =>
      rw [show joinComma (x :: y :: rest') = x ++ ',' :: joinComma (y :: rest')
        from rfl]
      rw [splitComma_append_comma, ih (by simp)]
      simp

/-- C10: for an entry whose stored tag set contains a name with a comma in
it, the read operations return the comma-joined string re-split at every
comma: the result is the concatenation of the comma-fragments of each
stored name, the comma-containing name itself is not among the returned
strings, and the returned list differs from the stored tag set. -/
theorem C10_comma_tag_split (names : List (List Char)) (n : List Char)
    (hn : n ∈ names) (hc : ',' ∈ n) :
    readTags names = (names.map splitComma).flatten ∧
    n ∉ readTags names ∧
    readTags names ≠ names := by
  have hne : names ≠ [] := List.ne_nil_of_mem hn
  have hread : readTags names = (names.map splitComma).flatten := by
    rw [readTags, if_neg (by simpa [List.isEmpty_iff] using hne)]
    exact splitComma_joinComma names hne
  refine ⟨hread, ?_, ?_⟩
  · intro hmem
    rw [hread] at hmem
    rcases List.mem_flatten.mp hmem with ⟨l, hl, hnl⟩
    rcases List.mem_map.mp hl with ⟨s, _, rfl⟩
    exact comma_not_mem_splitComma s n hnl hc
  · intro heq
    have hmem : n ∈ readTags names := by rw [heq]; exact hn
    rw [hread] at hmem
    rcases List.mem_flatten.mp hmem with ⟨l, hl, hnl⟩
    rcases List.mem_map.mp hl with ⟨s, _, rfl⟩
    exact comma_not_mem_splitComma s n hnl hc

/-- C10 (witness): the concrete entry whose single stored tag is `a,b`. -/
theorem C10_comma_tag_split_witness :
    ((['a', ',', 'b'] ∈ [['a', ',', 'b']]) ∧ (',' ∈ ['a', ',', 'b'])) ∧
    (readTags [['a', ',', 'b']] = ([['a', ',', 'b']].map splitComma).flatten ∧
     ['a', ',', 'b'] ∉ readTags [['a', ',', 'b']] ∧
     readTags [['a', ',', 'b']] ≠ [['a', ',', 'b']]) :=
  ⟨⟨by decide, by decide⟩,
   C10_comma_tag_split [['a', ',', 'b']] ['a', ',', 'b'] (by decide) (by decide)⟩

/-! ## Quality scoring (data_processor.py)

Scores are rationals; the Python floats only ever hold small decimal
constants and their sums, which ℚ represents exactly. -/

def clamp01 (q : ℚ) : ℚ := max 0 (min 1 q)

/-- Python `round(x, 3)` modelled as rounding to the nearest thousandth
(`round` rounds half upward where Python's float round is half-to-even;
every concrete value evaluated in this development is away from a
half-thousandth tie, where the two agree). -/
def round3 (q : ℚ) : ℚ := ((round (1000 * q) : ℤ) : ℚ) / 1000

/-- Python `\w` on the ASCII range: letters, digits, underscore. -/
def isWordChar (c : Char) : Bool := c.isAlphanum || c == '_'

/-- Numeric value of a digit run. -/
def digitsVal (ds : List Char) : Nat :=
  ds.foldl (fun a c => a * 10 + (c.toNat - 48)) 0

theorem lengthDropWhileLe (p : Char → Bool) (l : List Char) :
    (l.dropWhile p).length ≤ l.length := by
  induction l with
  | nil => simp [List.dropWhile]
  | cons c rest ih =>
    by_cases h : p c
    · simp only [List.dropWhile, h]
      exact Nat.le_succ_of_le ih
    · simp [List.dropWhile, h]

/-- `re.search(r'\b(\d+)\b', s)` specialised to this use: the first maximal
digit run with a word boundary on both sides, as a number.  `prevWord`
records whether the previous character was a word character. -/
def findInt (prevWord : Bool) : List Char → Option Nat
  | [] => none
  | c :: rest =>
    if c.isDigit && !prevWord then
      match h : rest.dropWhile Char.isDigit with
      | [] => some (digitsVal (c :: rest.takeWhile Char.isDigit))
      | d :: tail =>
        if isWordChar d then findInt true (d :: tail)
        else some (digitsVal (c :: rest.takeWhile Char.isDigit))
    else findInt (isWordChar c) rest
termination_by l => l.length
decreasing_by
  · have hlen := lengthDropWhileLe Char.isDigit rest
    rw [h] at hlen
    simp only [List.length_cons] at hlen ⊢
    omega
  · simp only [List.length_cons]
    omega

/-- First whole number in the model's response, per `_qwen_score_content`. -/
def extractFirstInt (s : List Char) : Option Nat := findInt false s

/-- `_qwen_score_content` (lines 121-133): a falsy or unparseable response
gives the neutral default 0.5; a parsed integer `n` gives
`max(0.0, min(1.0, n / 100))`.  The response is `none` when the API call
itself failed (`_call_qwen_chat_completion` returned `None`). -/
def qwen_parse_score (resp : Option String) : ℚ :=
  match resp with
  | none => 1 / 2
  | some s =>
    match extractFirstInt s.toList with
    | some n => clamp01 ((n : ℚ) / 100)
    | none => 1 / 2

/-- `qwen_score_image_quality` (lines 141-155): 0.1 when the image cannot
be base64-encoded, otherwise the parsed-score logic. -/
def qwen_score_image_quality (uriOk : Bool) (resp : Option String) : ℚ :=
  if uriOk then qwen_parse_score resp else 1 / 10

/-- JSON documents, for the heuristic JSON scorer. -/
inductive Json where
  | jnull : Json
  | jbool : Bool → Json
  | jnum : Int → Json
  | jstr : String → Json
  | jarr : List Json → Json
  | jobj : List (String × Json) → Json
deriving Repr

mutual
/-- `get_stats` inside `simple_score_json_quality` (lines 171-183): total
list-item count, total dict-key count, and the maximal depth visited,
starting from depth `d`. -/
def jsonStats : Json → Nat → Nat × Nat × Nat
  | .jarr es, d =>
    let s := jsonStatsList es (d + 1)
    (s.1 + es.length, s.2.1, max d s.2.2)
  | .jobj fs, d =>
    let s := jsonStatsFields fs (d + 1)
    (s.1, s.2.1 + fs.length, max d s.2.2)
  | _, d => (0, 0, d)

def jsonStatsList : List Json → Nat → Nat × Nat × Nat
  | [], _ => (0, 0, 0)
  | j :: js, d =>
    let a := jsonStats j d
    let b := jsonStatsList js d
    (a.1 + b.1, a.2.1 + b.2.1, max a.2.2 b.2.2)

def jsonStatsFields : List (String × Json) → Nat → Nat × Nat × Nat
  | [], _ => (0, 0, 0)
  | (_, v) :: fs, d =>
    let a := jsonStats v d
    let b := jsonStatsFields fs d
    (a.1 + b.1, a.2.1 + b.2.1, max a.2.2 b.2.2)
end

/-- Key set of a JSON dict (`set(item.keys())`), else empty. -/
def keyNames : Json → List String
  | .jobj fs => (fs.map (fun f => f.1)).dedup
  | _ => []

def isDict : Json → Bool
  | .jobj _ => true
  | _ => false

/-- Equality of two items' key sets. -/
def sameKeySet (a b : Json) : Bool :=
  (keyNames a).all (fun k => (keyNames b).contains k) &&
  (keyNames b).all (fun k => (keyNames a).contains k)

/-- The tabular-data bonus test (lines 192-195): a list of more than one
dict, the first five of which share one key set of more than one key. -/
def tabularBonus : Json → Bool
  | .jarr [] => false
  | .jarr (e0 :: es) =>
    decide ((e0 :: es).length > 1) && (e0 :: es).all isDict &&
    ((e0 :: es).take 5).all (fun e => sameKeySet e e0) &&
    decide ((keyNames e0).length > 1)
  | _ => false

/-- `simple_score_text_quality` (lines 158-165). -/
def simple_score_text_quality (text : String) (fileSize : Nat) : ℚ :=
  if text.length = 0 then 1 / 20
  else
    let s1 : ℚ := 3 / 10
    let s2 := if text.length > 2000 then s1 + 2 / 5
              else if text.length > 100 then s1 + 3 / 20 else s1
    let s3 := if fileSize > 10240 then s2 + 1 / 10 else s2
    let s4 := if text.toList.contains (Char.ofNat 65533) then s3 - 3 / 10 else s3
    max (1 / 20) (min 1 s4)

/-- `simple_score_json_quality` (lines 167-200). -/
def simple_score_json_quality (j : Json) (fileSize : Nat) : ℚ :=
  let stats := jsonStats j 0
  let numItems := stats.1
  let numKeys := stats.2.1
  let maxDepth := stats.2.2
  let m1 : ℚ := if numItems > 50 then 3 / 10 else if numItems > 5 then 3 / 20 else 0
  let m2 := m1 + (if numKeys > 30 then 1 / 5 else if numKeys > 5 then 1 / 10 else 0)
  let m3 := m2 + (if maxDepth > 4 then 1 / 10 else 0)
  let m4 := m3 + (if tabularBonus j then 1 / 4 else 0)
  let m5 := if fileSize > 51200 then m4 + 1 / 10
            else if fileSize < 100 ∧ numItems ≤ 1 ∧ numKeys ≤ 2 then m4 - 3 / 20
            else m4
  max (1 / 20) (min 1 (3 / 10 + m5))

/-- `simple_score_image_quality` (lines 202-211); a PIL failure is the
`width = height = 0` case. -/
def simple_score_image_quality (width height fileSize : Nat) : ℚ :=
  let s1 : ℚ := 1 / 5
  let s2 := if width * height ≥ 1000000 then s1 + 3 / 10
            else if width * height ≥ 250000 then s1 + 3 / 20 else s1
  let s3 := if fileSize ≥ 1000000 then s2 + 3 / 10
            else if fileSize < 10000 then s2 - 1 / 5 else s2
  max (1 / 20) (min 1 s3)

/-- `os.path.splitext(filename)[1].lower()`: the lowercased extension
after the last dot, empty when there is no dot. -/
def extOf (filename : String) : String :=
  let rev := filename.toList.reverse
  let r := rev.takeWhile (fun c => c ≠ '.')
  if r.length = rev.length then ""
  else String.mk ('.' :: (r.reverse.map Char.toLower))

def JSON_CONTAINER_TYPE : String := "application/json_container"
def JSON_ITEM_TYPE : String := "application/json_item"

/-- `simple_score_other_quality` (lines 213-219). -/
def simple_score_other_quality (objType : String) (fileSize : Nat)
    (filename : String) : ℚ :=
  let s1 : ℚ := 1 / 5
  let s2 := if fileSize > 1000000 then s1 + 1 / 5 else s1
  let s3 := if [".pdf", ".docx", ".xlsx", ".zip", ".csv"].contains (extOf filename)
            then s2 + 1 / 5 else s2
  let s4 := if objType == JSON_CONTAINER_TYPE then
              (if fileSize > 100000 then s3 + 1 / 4 else s3)
            else s3
  max (1 / 20) (min 1 s4)

/-- One `new` entry as seen by `process_data_objects`, covering the five
dispatch branches (lines 256-287) with exactly the data each branch reads.
The `resp` fields are the external scorer's raw responses (`none` when the
call failed). -/
inductive ProcInput where
  | textIn (resp : Option String) (content : String) (fileSize : Nat)
  | imageIn (uriOk : Bool) (resp : Option String) (width height fileSize : Nat)
  | jsonIn (resp : Option String) (j : Json) (fileSize : Nat)
  | containerIn (resp : Option String) (fileSize : Nat) (name : String)
  | otherIn (resp : Option String) (objType : String) (fileSize : Nat) (name : String)

/-- `score_llm` after the dispatch. -/
def score_llm_of : ProcInput → ℚ
  | .textIn r _ _ => qwen_parse_score r
  | .imageIn ok r _ _ _ => qwen_score_image_quality ok r
  | .jsonIn r _ _ => qwen_parse_score r
  | .containerIn r _ _ => qwen_parse_score r
  | .otherIn r _ _ _ => qwen_parse_score r

/-- `score_simple` after the dispatch. -/
def score_simple_of : ProcInput → ℚ
  | .textIn _ content size => simple_score_text_quality content size
  | .imageIn _ _ w h size => simple_score_image_quality w h size
  | .jsonIn _ j size => simple_score_json_quality j size
  | .containerIn _ size name => simple_score_other_quality JSON_CONTAINER_TYPE size name
  | .otherIn _ t size name => simple_score_other_quality t size name

def LLM_QUALITY_WEIGHT : ℚ := 13 / 20
def SIMPLE_QUALITY_WEIGHT : ℚ := 7 / 20

/-- `final_score = round((score_llm * LLM_QUALITY_WEIGHT) +
(score_simple * SIMPLE_QUALITY_WEIGHT), 3)` (line 294). -/
def final_quality_score (inp : ProcInput) : ℚ :=
  round3 (score_llm_of inp * LLM_QUALITY_WEIGHT
    + score_simple_of inp * SIMPLE_QUALITY_WEIGHT)

/-- The quality score `process_data_objects` persists for an entry whose
`source` column holds `src`: the loop reads the entry's fields but its
score computation never consults `source`. -/
def persisted_quality_score (_src : Option String) (inp : ProcInput) : ℚ :=
  final_quality_score inp

/-- The scoring scheme in the words of the claim C5: success-dependent
model weight, times a source-provenance weight, clamped to [0,1].  Defined
only to compare against the code's formula. -/
def spec_combined_score (modelWeight sourceWeight modelEst heurEst : ℚ) : ℚ :=
  clamp01 (sourceWeight * (modelWeight * modelEst + (1 - modelWeight) * heurEst))

theorem clamp01_bounds (q : ℚ) : 0 ≤ clamp01 q ∧ clamp01 q ≤ 1 :=
  ⟨le_max_left _ _, max_le (by norm_num) (min_le_left _ _)⟩

theorem clampLow_nonneg_le_one (q : ℚ) :
    0 ≤ max (1 / 20) (min 1 q) ∧ max (1 / 20) (min 1 q) ≤ 1 :=
  ⟨le_trans (by norm_num) (le_max_left _ _), max_le (by norm_num) (min_le_left _ _)⟩

theorem qwen_parse_score_bounds (r : Option String) :
    0 ≤ qwen_parse_score r ∧ qwen_parse_score r ≤ 1 := by
  cases r with
  | none => norm_num [qwen_parse_score]
  | some s =>
    rcases hx : extractFirstInt s.toList with _ | n
    · simp only [qwen_parse_score, hx]
      norm_num
    · simp only [qwen_parse_score, hx]
      exact clamp01_bounds _

theorem score_llm_of_bounds (inp : ProcInput) :
    0 ≤ score_llm_of inp ∧ score_llm_of inp ≤ 1 := by
  cases inp with
  | imageIn ok r w h size =>
    cases ok with
    | true => simpa [score_llm_of, qwen_score_image_quality] using qwen_parse_score_bounds r
    | false => norm_num [score_llm_of, qwen_score_image_quality]
  | textIn r c s => exact qwen_parse_score_bounds r
  | jsonIn r j s => exact qwen_parse_score_bounds r
  | containerIn r s n => exact qwen_parse_score_bounds r
  | otherIn r t s n => exact qwen_parse_score_bounds r

theorem simple_score_text_quality_bounds (t : String) (s : Nat) :
    0 ≤ simple_score_text_quality t s ∧ simple_score_text_quality t s ≤ 1 := by
  unfold simple_score_text_quality
  split
  · norm_num
  · exact clampLow_nonneg_le_one _

theorem score_simple_of_bounds (inp : ProcInput) :
    0 ≤ score_simple_of inp ∧ score_simple_of inp ≤ 1 := by
  cases inp with
  | textIn r c s => exact simple_score_text_quality_bounds c s
  | imageIn ok r w h size => exact clampLow_nonneg_le_one _
  | jsonIn r j s => exact clampLow_nonneg_le_one _
  | containerIn r s n => exact clampLow_nonneg_le_one _
  | otherIn r t s n => exact clampLow_nonneg_le_one _

theorem round3_bounds {q : ℚ} (h0 : 0 ≤ q) (h1 : q ≤ 1) :
    0 ≤ round3 q ∧ round3 q ≤ 1 := by
  have hlow : (0 : ℤ) ≤ round (1000 * q) := by
    rw [round_eq]
    exact Int.le_floor.mpr (by push_cast; linarith)
  have hhigh : round (1000 * q) ≤ 1000 := by
    rw [round_eq]
    have h2 : (1000 : ℚ) * q + 1 / 2 ≤ 2001 / 2 := by linarith
    calc ⌊(1000 : ℚ) * q + 1 / 2⌋ ≤ ⌊(2001 : ℚ) / 2⌋ := Int.floor_mono h2
      _ = 1000 := by norm_num
  constructor
  · exact div_nonneg (by exact_mod_cast hlow) (by norm_num)
  · rw [round3, div_le_one (by norm_num)]
    exact_mod_cast hhigh

/-! ## Theorems for claims C5 and C6 -/

/-- C6: every quality score the Classifier persists — for every dispatch
branch (text, image, JSON item, JSON container, other), every scorer
response including failures and unparseable answers, every file size and
content — lies in [0,1]. -/
theorem C6_quality_score_in_unit (inp : ProcInput) :
    0 ≤ final_quality_score inp ∧ final_quality_score inp ≤ 1 := by
  obtain ⟨l0, l1⟩ := score_llm_of_bounds inp
  obtain ⟨s0, s1⟩ := score_simple_of_bounds inp
  unfold final_quality_score LLM_QUALITY_WEIGHT SIMPLE_QUALITY_WEIGHT
  apply round3_bounds
  · linarith
  · linarith

/-- C5 (counterexample): a text entry whose external scoring call failed
(`resp = none`, so the model estimate falls back to 0.5) with heuristic
estimate 0.3 is persisted as `round(0.65·0.5 + 0.35·0.3, 3) = 0.43`,
whereas the claimed failure-time weighting of roughly 10% model / 90%
heuristic with a neutral source weight and clamping yields 0.32: the code
does not shift the weights on failure (nor apply any source factor). -/
theorem C5_counterexample :
    final_quality_score (.textIn none "abc" 0) = 43 / 100 ∧
    spec_combined_score (1 / 10) 1 (1 / 2) (3 / 10) = 8 / 25 ∧
    (43 / 100 : ℚ) ≠ 8 / 25 := by
  refine ⟨?_, ?_, by norm_num⟩
  · have hsimple : simple_score_text_quality "abc" 0 = 3 / 10 := by
      have hlen : "abc".length = 3 := rfl
      have hcont : "abc".toList.contains (Char.ofNat 65533) = false := rfl
      simp only [simple_score_text_quality, hlen, hcont]
      norm_num [min_def, max_def]
    have hllm : qwen_parse_score none = 1 / 2 := rfl
    simp only [final_quality_score, score_llm_of, score_simple_of, hsimple, hllm,
      LLM_QUALITY_WEIGHT, SIMPLE_QUALITY_WEIGHT]
    norm_num [round3, round_eq]
  · norm_num [spec_combined_score, clamp01]

/-- C5 (amended): the persisted score is always
`round(0.65·model + 0.35·heuristic, 3)` with the same fixed weights whether
or not the external scorer succeeded (failure only substitutes the default
model estimate, 0.5, or 0.1 for an unencodable image), it does not depend
on the entry's source, and no source multiplier or further clamping is
applied beyond the clamps inside the two component estimates. -/
theorem C5_fixed_weight_combination (src₁ src₂ : Option String) (inp : ProcInput) :
    persisted_quality_score src₁ inp = persisted_quality_score src₂ inp ∧
    persisted_quality_score src₁ inp =
      round3 (score_llm_of inp * LLM_QUALITY_WEIGHT
        + score_simple_of inp * SIMPLE_QUALITY_WEIGHT) ∧
    qwen_parse_score none = 1 / 2 :=
  ⟨rfl, rfl, rfl⟩

/-! ## Ingestor (data_ingestor.py, ingest_new_data lines 129-261)

The filesystem effects are made explicit: which records were inserted,
whether the copied container blob and the per-item blobs are still on
disk, and whether the original source file was removed.  Database inserts
can fail (`insert_data_object` returning `None`), driven by the oracles
`okC` (container / single-entry insert) and `okI k` (item `k`'s insert). -/

structure InsRec where
  name : String
  ftype : String
  source : Option String
  tags : List String
  source_original_id : Option Nat
  source_item_key : Option String
  summary : String
deriving Repr, DecidableEq

structure IngestOutcome where
  records : List InsRec
  containerBlobKept : Bool
  itemBlobsKept : List Nat
  sourceRemoved : Bool
deriving Repr, DecidableEq

/-- Python `'. '.join(parts)`. -/
def joinDotSpace : List String → String
  | [] => ""
  | [s] => s
  | s :: t :: rest => s ++ ". " ++ joinDotSpace (t :: rest)

/-- `get_file_content_summary` for a `JSON_CONTAINER_TYPE` blob (lines
57-122): the `File/Type/Size` parts and `Contains: List of N JSON items.`,
joined with `. `.  The size text (`f"{kb:.2f}"`) is passed through. -/
def container_summary (fname sizeText : String) (n : Nat) : String :=
  joinDotSpace ["File: " ++ fname, "Type: " ++ JSON_CONTAINER_TYPE,
    "Size: " ++ sizeText ++ "KB",
    "Contains: List of " ++ toString n ++ " JSON items."]

/-- `os.path.splitext(...)[0]`: the name up to the last dot. -/
def stemOf (filename : String) : String :=
  let rev := filename.toList.reverse
  let r := rev.takeWhile (fun c => c ≠ '.')
  if r.length = rev.length then filename
  else String.mk ((rev.drop (r.length + 1)).reverse)

/-- The record inserted for the container (lines 159-165). -/
def container_record (fname sizeText : String) (n : Nat) : InsRec :=
  { name := fname, ftype := JSON_CONTAINER_TYPE, source := none,
    tags := ["json_container", "unclassified_list"],
    source_original_id := none, source_item_key := none,
    summary := container_summary fname sizeText n }

/-- The record inserted for array element `k` (lines 176-195). -/
def item_record (fname : String) (cid k : Nat) (itemSummary : Nat → String) :
    InsRec :=
  { name := stemOf fname ++ "_item_" ++ toString k ++ ".json",
    ftype := JSON_ITEM_TYPE, source := none,
    tags := ["json_item", "unclassified"],
    source_original_id := some cid,
    source_item_key := some (toString k),
    summary := itemSummary k }

/-- The non-empty-JSON-array branch (lines 156-209): insert the container
entry; on failure remove the copied blob and leave the source file; on
success, for each element write an item blob and insert an item entry
linked by `source_original_id`/`source_item_key` (removing the item blob
again when its insert fails), then — since `container_id` is truthy —
remove the original source file regardless of the item successes. -/
def ingest_json_list (fname sizeText : String) (elems : List Json) (cid : Nat)
    (okC : Bool) (okI : Nat → Bool) (itemSummary : Nat → String) :
    IngestOutcome :=
  if okC then
    { records := container_record fname sizeText elems.length
        :: (List.range elems.length).filterMap (fun k =>
          if okI k then some (item_record fname cid k itemSummary) else none)
      containerBlobKept := true
      itemBlobsKept := (List.range elems.length).filter (fun k => okI k)
      sourceRemoved := true }
  else
    { records := [], containerBlobKept := false, itemBlobsKept := []
      sourceRemoved := false }

/-- The single-entry branches (lines 211-251): one record on success with
the source file removed; on failure the copied blob is removed and the
source file left in place. -/
def ingest_single (fname ftype : String) (tags : List String)
    (summaryText : String) (ok : Bool) : IngestOutcome :=
  if ok then
    { records := [{ name := fname, ftype := ftype, source := none, tags := tags,
                    source_original_id := none, source_item_key := none,
                    summary := summaryText }]
      containerBlobKept := true, itemBlobsKept := [], sourceRemoved := true }
  else
    { records := [], containerBlobKept := false, itemBlobsKept := []
      sourceRemoved := false }

/-- What a dropped file parses to: a JSON document (for `.json` files that
parse), invalid JSON, or any other type. -/
inductive FileContent where
  | jsonDoc (j : Json)
  | invalidJson
  | other (ftype : String)

/-- A directory entry of the input directory.  The files inside a
subdirectory are listed so that the claim about descending into
subdirectories can be stated; `os.listdir` itself is not recursive. -/
inductive FsNode where
  | file (name : String) (content : FileContent) (sizeText summaryText : String)
  | dir (name : String) (entries : List String)

/-- Per-file processing of `ingest_new_data` (lines 148-251). -/
def ingest_file (fname : String) (content : FileContent)
    (sizeText summaryText : String) (cid : Nat) (okC : Bool) (okI : Nat → Bool)
    (itemSummary : Nat → String) : IngestOutcome :=
  match content with
  | .jsonDoc (.jarr (e :: es)) =>
    ingest_json_list fname sizeText (e :: es) cid okC okI itemSummary
  | .jsonDoc _ =>
    ingest_single fname "application/json" ["json_object", "unclassified"]
      summaryText okC
  | .invalidJson =>
    ingest_single fname "application/octet-stream" ["invalid_json", "unclassified"]
      summaryText okC
  | .other ftype => ingest_single fname ftype ["unclassified"] summaryText okC

/-- `ingest_new_data(input_dir, target_base_dir)` (lines 137-139): iterate
`os.listdir(input_dir)`; anything that is not a regular file — in
particular every subdirectory — is skipped by
`if not os.path.isfile(source_filepath): continue`; regular files are
processed in place.  No `source` argument is ever passed to
`insert_data_object`. -/
def ingest_new_data (nodes : List FsNode) (cid : Nat) (okC : Bool)
    (okI : Nat → Bool) (itemSummary : Nat → String) : List InsRec :=
  nodes.flatMap (fun node =>
    match node with
    | .dir _ _ => []
    | .file fname content sizeText summaryText =>
      (ingest_file fname content sizeText summaryText cid okC okI itemSummary).records)

theorem hasSubL_append_extend (x p t : List Char) (h : hasSubL p t = true) :
    hasSubL p (x ++ t) = true := by
  induction x with
  | nil => simpa using h
  | cons c x ih =>
    show (startsWithL p (c :: (x ++ t)) || hasSubL p (x ++ t)) = true
    simp [ih]

theorem hasSubL_append_mid (l₁ p l₂ : List Char) :
    hasSubL p (l₁ ++ (p ++ l₂)) = true := by
  simpa [List.append_assoc] using hasSubL_append_left l₁ p l₂

theorem strContains_append_mid (a p b : String) :
    strContains p (a ++ (p ++ b)) = true := by
  unfold strContains
  simp only [String.toList, String.data_append]
  exact hasSubL_append_mid _ _ _

theorem strContains_append_extend (x p t : String)
    (h : strContains p t = true) : strContains p (x ++ t) = true := by
  unfold strContains at h ⊢
  simp only [String.toList, String.data_append]
  exact hasSubL_append_extend _ _ _ h

/-- The container summary always contains the element count. -/
theorem container_summary_has_count (fname sizeText : String) (n : Nat) :
    strContains (toString n) (container_summary fname sizeText n) = true := by
  have hshape : container_summary fname sizeText n =
      "File: " ++ (fname ++ (". " ++ ("Type: " ++ (JSON_CONTAINER_TYPE ++
        (". " ++ ("Size: " ++ (sizeText ++ ("KB. " ++ ("Contains: List of " ++
          (toString n ++ " JSON items.")))))))))) := by
    simp [container_summary, joinDotSpace, String.append_assoc]
  rw [hshape]
  repeat
    first
    | exact strContains_append_mid _ _ _
    | apply strContains_append_extend

/-! ## Theorems for claims C3 and C4 -/

/-- C3 (counterexample): a subdirectory `finance` of the input root that
contains a regular file `report.txt` produces no catalog entry at all (the
scan skips everything that is not a regular file of the root), and a
regular file at the root itself is ingested with no source label — not
with the name of any subdirectory. -/
theorem C3_counterexample :
    ingest_new_data [FsNode.dir "finance" ["report.txt"]] 0 true
        (fun _ => true) (fun _ => "") = [] ∧
    (ingest_new_data
        [FsNode.file "a.txt" (FileContent.other "text/plain") "0.04" "s"] 0 true
        (fun _ => true) (fun _ => "")).map (fun r => r.source) = [none] := by
  exact ⟨rfl, rfl⟩

theorem ingest_file_source_none (fname : String) (content : FileContent)
    (sizeText summaryText : String) (cid : Nat) (okC : Bool) (okI : Nat → Bool)
    (isum : Nat → String) :
    ((ingest_file fname content sizeText summaryText cid okC okI
      isum).records.all (fun r => r.source == none)) = true := by
  have hsingle : ∀ fn ft tg st ok,
      ((ingest_single fn ft tg st ok).records.all (fun r => r.source == none))
        = true := by
    intro fn ft tg st ok
    cases ok <;> simp [ingest_single]
  match content with
  | .jsonDoc (.jarr (e :: es)) =>
    show ((ingest_json_list fname sizeText (e :: es) cid okC okI
      isum).records.all (fun r => r.source == none)) = true
    cases okC with
    | false => simp [ingest_json_list]
    | true =>
      simp only [ingest_json_list, if_true]
      rw [List.all_cons]
      refine (Bool.and_eq_true ..).mpr ⟨by simp [container_record], ?_⟩
      rw [List.all_eq_true]
      intro r hr
      rcases List.mem_filterMap.mp hr with ⟨k, _, hk⟩
      by_cases hok : okI k = true
      · rw [if_pos hok] at hk
        cases hk
        simp [item_record]
      · rw [if_neg hok] at hk
        cases hk
  | .jsonDoc .jnull => exact hsingle ..
  | .jsonDoc (.jbool b) => exact hsingle ..
  | .jsonDoc (.jnum i) => exact hsingle ..
  | .jsonDoc (.jstr s) => exact hsingle ..
  | .jsonDoc (.jarr []) => exact hsingle ..
  | .jsonDoc (.jobj fs) => exact hsingle ..
  | .invalidJson => exact hsingle ..
  | .other ft => exact hsingle ..

/-- C3 (amended): the scan processes only the regular files directly in
the input root — a subdirectory contributes nothing, whatever it contains —
and every catalog entry the ingestion creates has no source label
(`insert_data_object` is always called with its `source` defaulting to
`None`). -/
theorem C3_no_subdir_no_source (nodes : List FsNode) (d : String)
    (sub : List String) (cid : Nat) (okC : Bool) (okI : Nat → Bool)
    (isum : Nat → String) :
    ((ingest_new_data nodes cid okC okI isum).all (fun r => r.source == none))
        = true ∧
    ingest_new_data (FsNode.dir d sub :: nodes) cid okC okI isum
      = ingest_new_data nodes cid okC okI isum := by
  constructor
  · induction nodes with
    | nil => rfl
    | cons node rest ih =>
      cases node with
      | dir nm es => simpa [ingest_new_data] using ih
      | file fn c st sm =>
        simp only [ingest_new_data, List.flatMap_cons, List.all_append]
        refine (Bool.and_eq_true ..).mpr ⟨ingest_file_source_none .., ?_⟩
        simpa [ingest_new_data] using ih
  · rfl

theorem item_ne_container_type : JSON_ITEM_TYPE ≠ JSON_CONTAINER_TYPE := by
  decide

theorem container_ne_item_type : JSON_CONTAINER_TYPE ≠ JSON_ITEM_TYPE := by
  decide

/-- C4: ingesting a file that parses as a non-empty JSON array.  If the
container insert fails, no record is created, the copied blob is removed
and the source file stays.  If it succeeds, the source file is removed
whatever the item oracle did; exactly one `json_container` record exists
and its summary contains the element count; every `json_item` record
carries `source_original_id = cid` and an array index as its
`source_item_key`; and every element whose insert succeeded has its
`json_item` record. -/
theorem C4_json_array_ingestion (fname sizeText summaryText : String)
    (e : Json) (es : List Json) (cid : Nat) (okI : Nat → Bool)
    (isum : Nat → String) :
    (ingest_file fname (.jsonDoc (.jarr (e :: es))) sizeText summaryText cid
        false okI isum) =
      ⟨[], false, [], false⟩ ∧
    (ingest_file fname (.jsonDoc (.jarr (e :: es))) sizeText summaryText cid
        true okI isum).sourceRemoved = true ∧
    ((ingest_file fname (.jsonDoc (.jarr (e :: es))) sizeText summaryText cid
        true okI isum).records.countP
      (fun r => r.ftype == JSON_CONTAINER_TYPE)) = 1 ∧
    (∀ r ∈ (ingest_file fname (.jsonDoc (.jarr (e :: es))) sizeText
        summaryText cid true okI isum).records,
      r.ftype = JSON_CONTAINER_TYPE →
        strContains (toString (e :: es).length) r.summary = true) ∧
    (∀ r ∈ (ingest_file fname (.jsonDoc (.jarr (e :: es))) sizeText
        summaryText cid true okI isum).records,
      r.ftype = JSON_ITEM_TYPE →
        r.source_original_id = some cid ∧
        ∃ k, k < (e :: es).length ∧ okI k = true ∧
          r.source_item_key = some (toString k)) ∧
    (∀ k, k < (e :: es).length → okI k = true →
      ∃ r ∈ (ingest_file fname (.jsonDoc (.jarr (e :: es))) sizeText
          summaryText cid true okI isum).records,
        r.ftype = JSON_ITEM_TYPE ∧ r.source_original_id = some cid ∧
          r.source_item_key = some (toString k)) := by
  have heq : ∀ ok, ingest_file fname (.jsonDoc (.jarr (e :: es))) sizeText
      summaryText cid ok okI isum =
      ingest_json_list fname sizeText (e :: es) cid ok okI isum := fun _ => rfl
  refine ⟨?_, ?_⟩
  · rw [heq]
    simp [ingest_json_list]
  · rw [heq]
    have hrecs : (ingest_json_list fname sizeText (e :: es) cid true okI
        isum).records =
        container_record fname sizeText (e :: es).length
          :: (List.range (e :: es).length).filterMap (fun k =>
            if okI k then some (item_record fname cid k isum) else none) := rfl
    refine ⟨rfl, ?_, ?_, ?_, ?_⟩
    · rw [hrecs, List.countP_cons_of_pos _ _ (by rfl)]
      have hzero : (List.countP (fun r => r.ftype == JSON_CONTAINER_TYPE)
          ((List.range (e :: es).length).filterMap (fun k =>
            if okI k then some (item_record fname cid k isum) else none))) = 0 := by
        rw [List.countP_eq_zero]
        intro r hr
        rcases List.mem_filterMap.mp hr with ⟨k, _, hk⟩
        by_cases hok : okI k = true
        · rw [if_pos hok] at hk
          cases hk
          intro hcontra
          exact item_ne_container_type (eq_of_beq hcontra)
        · rw [if_neg hok] at hk
          cases hk
      rw [hzero]
    · intro r hr hft
      rw [hrecs] at hr
      rcases List.mem_cons.mp hr with rfl | hr'
      · exact container_summary_has_count fname sizeText (e :: es).length
      · rcases List.mem_filterMap.mp hr' with ⟨k, _, hk⟩
        by_cases hok : okI k = true
        · rw [if_pos hok] at hk
          cases hk
          exact absurd hft item_ne_container_type
        · rw [if_neg hok] at hk
          cases hk
    · intro r hr hft
      rw [hrecs] at hr
      rcases List.mem_cons.mp hr with rfl | hr'
      · exact absurd hft container_ne_item_type
      · rcases List.mem_filterMap.mp hr' with ⟨k, hkmem, hk⟩
        by_cases hok : okI k = true
        · rw [if_pos hok] at hk
          cases hk
          exact ⟨rfl, k, List.mem_range.mp hkmem, hok, rfl⟩
        · rw [if_neg hok] at hk
          cases hk
    · intro k hk hok
      refine ⟨item_record fname cid k isum, ?_, rfl, rfl, rfl⟩
      rw [hrecs]
      refine List.mem_cons_of_mem _ (List.mem_filterMap.mpr ⟨k, ?_, ?_⟩)
      · exact List.mem_range.mpr hk
      · rw [if_pos hok]

end Dbm
